import Mathlib

/-!
# Verification of the Cloudinary proxy server

A shallow embedding of the request-handling logic of the Cloudinary proxy
server (`src/server.js` with its related variant, and `src/unnamed/part_000`).
JavaScript strings are modelled as Lean `String` (operated on through their
`List Char` data), JavaScript objects built by `JSON.parse` as
insertion-ordered association lists with the ECMAScript own-property-key
enumeration order made explicit, and the two external collaborators
(Cloudinary's upload stream, the HTTP transport) as explicit function
parameters so that theorems can speak about which upstream calls a handler
performs.
-/

namespace CloudinaryProxy

/-! ## Character-list utilities

`splitOnChar` is JavaScript's `String.prototype.split` with a one-character
separator (`"".split(s)` gives `[""]`, separators at the ends give empty
segments).  `joinWith` is `Array.prototype.join` with a one-character
separator.  `afterFirstChar` returns everything after the first occurrence
of a character.
-/

def splitOnChar (c : Char) : List Char → List (List Char)
  | [] => [[]]
  | x :: xs =>
    if x = c then [] :: splitOnChar c xs
    else
      match splitOnChar c xs with
      | [] => [[x]]
      | h :: t => (x :: h) :: t

def joinWith (c : Char) : List (List Char) → List Char
  | [] => []
  | [p] => p
  | p :: q :: ps => p ++ c :: joinWith c (q :: ps)

def afterFirstChar (c : Char) : List Char → Option (List Char)
  | [] => none
  | x :: xs => if x = c then some xs else afterFirstChar c xs

theorem splitOnChar_ne_nil (c : Char) (l : List Char) : splitOnChar c l ≠ [] := by
  cases l with
  | nil => simp [splitOnChar]
  | cons x xs =>
    simp only [splitOnChar]
    split
    · simp
    · split <;> simp

theorem splitOnChar_of_notMem {c : Char} {l : List Char} (h : c ∉ l) :
    splitOnChar c l = [l] := by
  induction l with
  | nil => rfl
  | cons x xs ih =>
    have hx : x ≠ c := fun hc => h (hc ▸ List.mem_cons_self x xs)
    have hxs : c ∉ xs := fun hc => h (List.mem_cons_of_mem x hc)
    simp only [splitOnChar, if_neg hx, ih hxs]

theorem splitOnChar_append_cons {c : Char} {p rest : List Char} (h : c ∉ p) :
    splitOnChar c (p ++ c :: rest) = p :: splitOnChar c rest := by
  induction p with
  | nil => simp [splitOnChar]
  | cons x xs ih =>
    have hx : x ≠ c := fun hc => h (hc ▸ List.mem_cons_self x xs)
    have hxs : c ∉ xs := fun hc => h (List.mem_cons_of_mem x hc)
    simp only [List.cons_append, splitOnChar, if_neg hx, List.append_eq, ih hxs]

theorem splitOnChar_joinWith {c : Char} :
    ∀ {parts : List (List Char)}, parts ≠ [] → (∀ p ∈ parts, c ∉ p) →
      splitOnChar c (joinWith c parts) = parts
  | [], h, _ => absurd rfl h
  | [p], _, hall => by
      simp only [joinWith]
      exact splitOnChar_of_notMem (hall p (by simp))
  | p :: q :: ps, _, hall => by
      simp only [joinWith]
      rw [splitOnChar_append_cons (hall p (by simp))]
      rw [splitOnChar_joinWith (by simp) (fun r hr => hall r (List.mem_cons_of_mem p hr))]

theorem splitOnChar_head? (c : Char) (l : List Char) :
    (splitOnChar c l)[0]? = some (l.takeWhile (· ≠ c)) := by
  induction l with
  | nil => rfl
  | cons x xs ih =>
    simp only [splitOnChar, List.takeWhile]
    by_cases hx : x = c
    · subst hx; simp
    · rw [if_neg hx]
      have hxd : (decide (x ≠ c)) = true := by simp [hx]
      rw [hxd]
      rcases hsp : splitOnChar c xs with _ | ⟨h, t⟩
      · exact absurd hsp (splitOnChar_ne_nil c xs)
      · rw [hsp] at ih
        simp only [List.getElem?_cons_zero, Option.some.injEq] at ih ⊢
        simp [ih]

theorem splitOnChar_getElem?_one (c : Char) (l : List Char) :
    (splitOnChar c l)[1]? = (afterFirstChar c l).map (List.takeWhile (· ≠ c)) := by
  induction l with
  | nil => rfl
  | cons x xs ih =>
    simp only [splitOnChar, afterFirstChar]
    by_cases hx : x = c
    · rw [if_pos hx, if_pos hx]
      simp only [List.getElem?_cons_succ, List.getElem?_cons_zero]
      rw [show ((splitOnChar c xs)[0]? : Option (List Char)) = _ from splitOnChar_head? c xs]
      rfl
    · rw [if_neg hx, if_neg hx]
      rcases hsp : splitOnChar c xs with _ | ⟨h, t⟩
      · exact absurd hsp (splitOnChar_ne_nil c xs)
      · rw [hsp] at ih
        simpa using ih

theorem takeWhile_append_of_forall {c : Char} {k v : List Char}
    (hk : ∀ x ∈ k, x ≠ c) : (k ++ c :: v).takeWhile (· ≠ c) = k := by
  induction k with
  | nil => simp [List.takeWhile]
  | cons x xs ih =>
    have hx : (decide (x ≠ c)) = true := decide_eq_true (hk x (by simp))
    simp only [List.cons_append, List.takeWhile, hx, List.append_eq]
    rw [ih (fun y hy => hk y (List.mem_cons_of_mem x hy))]

theorem afterFirstChar_append_cons {c : Char} {k v : List Char}
    (hk : c ∉ k) : afterFirstChar c (k ++ c :: v) = some v := by
  induction k with
  | nil => simp [afterFirstChar]
  | cons x xs ih =>
    have hx : x ≠ c := fun hc => hk (hc ▸ List.mem_cons_self x xs)
    simp only [List.cons_append, afterFirstChar, if_neg hx]
    exact ih (fun hc => hk (List.mem_cons_of_mem x hc))

/-! ## JavaScript string and object model

Metadata objects (the result of `JSON.parse(req.body.metadata)`) are flat
key-to-string mappings per the system's data model, represented as
association lists in property-creation (insertion) order.  `Object.entries`
enumerates own property keys in the ECMAScript order: keys that are array
indices (canonical numeric strings whose value is below `2^32 - 1`) first in
ascending numeric order, then the remaining string keys in creation order;
`jsRecordEntries` makes this explicit.  A JavaScript string is falsy exactly
when it is empty, which `jsTruthy`/`jsOrStr` capture for the `||` and
`&& value` idioms of the source.
-/

abbrev Metadata : Type := List (String × String)

/-- Property lookup `m[k]` on an object represented as an assoc list. -/
def jsGet (m : Metadata) (k : String) : Option String :=
  (List.find? (fun kv => kv.1 = k) m).map (·.2)

/-- Truthiness of a JavaScript string-or-undefined value. -/
def jsTruthy : Option String → Bool
  | none => false
  | some v => v ≠ ""

/-- The `a || b` idiom on string-or-undefined values. -/
def jsOrStr (a : Option String) (b : String) : String :=
  match a with
  | some v => if v = "" then b else v
  | none => b

/-- Numeric value of a digit string. -/
def natOfDigits (l : List Char) : Nat :=
  l.foldl (fun n c => n * 10 + (c.toNat - 48)) 0

/-- Whether a property key is an ECMAScript array index: a canonical numeric
string (digits only, no leading zero except `"0"` itself) whose numeric value
is strictly below `2 ^ 32 - 1`. -/
def isArrayIndexKey (s : String) : Bool :=
  match s.data with
  | [] => false
  | c :: cs =>
    (c :: cs).all (·.isDigit) && (c = '0' → cs = []) &&
      natOfDigits (c :: cs) < 4294967295

/-- Numeric key of an entry, used to order array-index properties. -/
def entryIndexVal (kv : String × String) : Nat := natOfDigits kv.1.data

/-- Insert an entry into a list sorted by ascending numeric key. -/
def insertAsc (kv : String × String) : List (String × String) → List (String × String)
  | [] => [kv]
  | x :: xs => if entryIndexVal kv ≤ entryIndexVal x then kv :: x :: xs else x :: insertAsc kv xs

/-- Insertion sort by ascending numeric key. -/
def sortAsc : List (String × String) → List (String × String)
  | [] => []
  | x :: xs => insertAsc x (sortAsc xs)

/-- Model of `Object.entries` on an object whose properties were created in the order
of the underlying list: array-index keys first in ascending numeric order,
then the remaining keys in creation order. -/
def jsRecordEntries (m : Metadata) : Metadata :=
  sortAsc (List.filter (fun kv => isArrayIndexKey kv.1) m) ++
    List.filter (fun kv => !isArrayIndexKey kv.1) m

theorem insertAsc_perm (kv : String × String) (l : List (String × String)) :
    List.Perm (insertAsc kv l) (kv :: l) := by
  induction l with
  | nil => rfl
  | cons x xs ih =>
    simp only [insertAsc]
    split
    · exact List.Perm.refl _
    · exact ((ih.cons x).trans (List.Perm.swap kv x xs))

theorem sortAsc_perm (l : List (String × String)) : List.Perm (sortAsc l) l := by
  induction l with
  | nil => rfl
  | cons x xs ih => exact (insertAsc_perm x (sortAsc xs)).trans (ih.cons x)

theorem jsRecordEntries_perm (m : Metadata) : List.Perm (jsRecordEntries m) m := by
  unfold jsRecordEntries
  exact (List.Perm.append_right _ (sortAsc_perm _)).trans
    (List.filter_append_perm (fun kv => isArrayIndexKey kv.1) m)

/-- Metadata objects with no array-index keys are enumerated in insertion
order. -/
theorem jsRecordEntries_of_noIndexKeys {m : Metadata}
    (h : ∀ kv ∈ m, isArrayIndexKey kv.1 = false) : jsRecordEntries m = m := by
  unfold jsRecordEntries
  have h1 : List.filter (fun kv => isArrayIndexKey kv.1) m = [] := by
    rw [List.filter_eq_nil_iff]
    intro a ha
    simp [h a ha]
  have h2 : List.filter (fun kv => !isArrayIndexKey kv.1) m = m := by
    rw [List.filter_eq_self]
    intro a ha
    simp [h a ha]
  rw [h1, h2]
  rfl

def IndexSortedLe (a b : String × String) : Prop := entryIndexVal a ≤ entryIndexVal b

theorem insertAsc_sorted {l : List (String × String)}
    (hl : List.Pairwise IndexSortedLe l) (kv : String × String) :
    List.Pairwise IndexSortedLe (insertAsc kv l) := by
  induction l with
  | nil => simp [insertAsc, List.Pairwise]
  | cons x xs ih =>
    simp only [insertAsc]
    rcases List.pairwise_cons.mp hl with ⟨hx, hxs⟩
    split
    · rename_i hle
      refine List.pairwise_cons.mpr ⟨?_, hl⟩
      intro b hb
      rcases List.mem_cons.mp hb with hb | hb
      · exact hb ▸ hle
      · exact le_trans hle (hx b hb)
    · rename_i hgt
      refine List.pairwise_cons.mpr ⟨?_, ih hxs⟩
      intro b hb
      have := (insertAsc_perm kv xs).mem_iff.mp hb
      rcases List.mem_cons.mp this with hb' | hb'
      · subst hb'
        exact le_of_not_le hgt
      · exact hx b hb'

theorem sortAsc_sorted (l : List (String × String)) :
    List.Pairwise IndexSortedLe (sortAsc l) := by
  induction l with
  | nil => exact List.Pairwise.nil
  | cons x xs ih => exact insertAsc_sorted ih x

theorem insertAsc_of_le {l : List (String × String)} {kv : String × String}
    (h : ∀ b ∈ l, IndexSortedLe kv b) : insertAsc kv l = kv :: l := by
  cases l with
  | nil => rfl
  | cons x xs => simp [insertAsc, h x (by simp), IndexSortedLe.eq_def] at *; simp [h.1]

theorem sortAsc_of_sorted {l : List (String × String)}
    (h : List.Pairwise IndexSortedLe l) : sortAsc l = l := by
  induction l with
  | nil => rfl
  | cons x xs ih =>
    rcases List.pairwise_cons.mp h with ⟨hx, hxs⟩
    simp only [sortAsc, ih hxs]
    exact insertAsc_of_le hx

/-- Model of `s.split(sep)` for a one-character separator, as in
`authHeader.split(' ')`. -/
def jsSplit (c : Char) (s : String) : List String :=
  (splitOnChar c s.data).map String.mk

/-- Model of `s.startsWith(p)`. -/
def strStartsWith (p s : String) : Bool := List.isPrefixOf p.data s.data

/-- Character-wise ASCII lowercasing, the effect of a case-insensitive
(`/i`) regular-expression comparison. -/
def lowerStr (s : String) : String := String.mk (s.data.map Char.toLower)

/-- Case-insensitive `s.endsWith(suffix)`. -/
def endsWithCI (suffix s : String) : Bool :=
  List.isSuffixOf (lowerStr suffix).data (lowerStr s).data

/-! ## Metadata partitioning and the context string

Three variants of the partitioning logic occur in the sources:

* `src/server.js` (main document, `contextEntries`): keep every entry whose
  key is neither `timestamp` nor `baseName` and whose value is truthy.
* `src/server.js` (related document, `contextData`): additionally drop the
  built-in keys `Title (caption)` and `Description (alt)`.
* `src/unnamed/part_000` (`contextData`): additionally drop every key that
  starts with `context.custom.`.

In the latter two variants the kept entries are inserted one by one into a
fresh `contextData` object, which is then enumerated again by
`Object.entries` when the context string is built; `contextEntriesOf`
reflects that second enumeration.  The context string joins the
`` `${key}=${value}` `` renderings with `'|'`.
-/

/-- Keys dropped in every variant (the denylist, plus the truthiness check
`&& value` on the entry's value). -/
def keepFreeForm (kv : String × String) : Bool :=
  kv.1 ≠ "timestamp" && kv.1 ≠ "baseName" && kv.2 ≠ ""

/-- Filter of `contextEntries` in `src/server.js` (main document). -/
def serverKeep (kv : String × String) : Bool := keepFreeForm kv

/-- Filter of `contextData` in the related `src/server.js` document. -/
def serverBKeep (kv : String × String) : Bool :=
  kv.1 ≠ "Title (caption)" && kv.1 ≠ "Description (alt)" && keepFreeForm kv

/-- Filter of `contextData` in `src/unnamed/part_000`. -/
def part000Keep (kv : String × String) : Bool :=
  !strStartsWith "context.custom." kv.1 && keepFreeForm kv

/-- Definition `contextEntries` of `src/server.js` (main document): a single
`Object.entries(metadata)` enumeration, filtered. -/
def contextEntries (m : Metadata) : Metadata :=
  List.filter serverKeep (jsRecordEntries m)

/-- The entries of a `contextData` object built by inserting the kept
entries of `metadata` in enumeration order and then enumerated again
(`Object.entries(contextData)`). -/
def contextEntriesOf (keep : (String × String) → Bool) (m : Metadata) : Metadata :=
  jsRecordEntries (List.filter keep (jsRecordEntries m))

/-- Entries of `contextData` in the related `src/server.js` document. -/
def serverBContextData (m : Metadata) : Metadata := contextEntriesOf serverBKeep m

/-- Entries of `contextData` in `src/unnamed/part_000`. -/
def part000ContextData (m : Metadata) : Metadata := contextEntriesOf part000Keep m

/-- The `` `${key}=${value}` `` rendering of one context entry. -/
def entryChars (kv : String × String) : List Char := kv.1.data ++ '=' :: kv.2.data

/-- Model of `.map(([key, value]) => `${key}=${value}`).join('|')`. -/
def joinContext (entries : Metadata) : String :=
  String.mk (joinWith '|' (List.map entryChars entries))

/-- The context string of `src/server.js` (main document). -/
def serverContextString (m : Metadata) : String := joinContext (contextEntries m)

/-- The context string of the related `src/server.js` document. -/
def serverBContextString (m : Metadata) : String := joinContext (serverBContextData m)

/-- The context string of `src/unnamed/part_000`. -/
def contextString (m : Metadata) : String := joinContext (part000ContextData m)

/-- Reading a context string back: split on `'|'`, then split each entry at
its first `'='` (key before, value after).  The empty string reads back as
the empty entry list. -/
def parseContext (s : String) : Metadata :=
  if s = "" then []
  else
    (splitOnChar '|' s.data).map fun e =>
      (String.mk (e.takeWhile (· ≠ '=')), String.mk ((afterFirstChar '=' e).getD []))

/-- A string that is safe to embed in a context entry: it contains neither
the pair separator `'|'` nor the key-value separator `'='`. -/
def delimFree (s : String) : Bool := s.data.all (fun c => c ≠ '|' && c ≠ '=')

/-! ## Filename sanitizing

`filename.replace(/\.(png|jpg|jpeg|gif|webp)$/i, '')` removes one trailing
image-extension suffix, case-insensitively.  The end-anchored pattern can
match at most one of the five alternatives (shown in `ext_suffix_unique`
below), so the replacement is equivalent to finding the extension that is a
case-insensitive dot-suffix and dropping it.
-/

def imageExts : List String := ["png", "jpg", "jpeg", "gif", "webp"]

/-- Derived storage object identifier (the `public_id` upload option). -/
def stripImageExt (filename : String) : String :=
  match List.find? (fun ext => endsWithCI ("." ++ ext) filename) imageExts with
  | some ext => String.mk (filename.data.take (filename.data.length - (ext.data.length + 1)))
  | none => filename

/-! ## Authentication middleware

Translation of `authenticateToken`: the token is
`authHeader && authHeader.split(' ')[1]`, a falsy token yields 401, a token
different from the configured secret yields 403, otherwise the middleware
calls `next()` and the request continues unchanged.
-/

inductive AuthResult where
  | reject (status : Nat) (error : String)
  | pass
deriving DecidableEq, Repr

/-- Token extraction of `authenticateToken`: guarded by the truthiness of the
header itself, then element 1 of `authHeader.split(' ')`. -/
def extractToken (authHeader : Option String) : Option String :=
  match authHeader with
  | none => none
  | some h => if h = "" then none else (jsSplit ' ' h)[1]?

def authenticateToken (authHeader : Option String) (authSecret : String) : AuthResult :=
  match extractToken authHeader with
  | none => .reject 401 "Access token required"
  | some t =>
    if t = "" then .reject 401 "Access token required"
    else if t ≠ authSecret then .reject 403 "Invalid access token"
    else .pass

/-- Spec reading of the token ("the substring after the first space of the
Authorization header"), written from the spec's words for comparison with
the code's extraction. -/
def specTokenAfterFirstSpace (h : String) : Option String :=
  (afterFirstChar ' ' h.data).map String.mk

/-- The auth guard as the claim states it: token taken to be the whole
substring after the first space, absent or empty token yields 401, other
mismatching token yields 403, matching token passes. -/
def claimAuthGuard (authHeader : Option String) (authSecret : String) : AuthResult :=
  match authHeader with
  | none => .reject 401 "Access token required"
  | some h =>
    match specTokenAfterFirstSpace h with
    | none => .reject 401 "Access token required"
    | some t =>
      if t = "" then .reject 401 "Access token required"
      else if t ≠ authSecret then .reject 403 "Invalid access token"
      else .pass

/-- The amended token reading: the second space-separated field of the
header, that is the maximal space-free substring following the first
space. -/
def specSecondField (h : String) : Option String :=
  (afterFirstChar ' ' h.data).map (fun l => String.mk (l.takeWhile (· ≠ ' ')))

/-- The auth guard with the amended token reading. -/
def claimAuthGuardAmended (authHeader : Option String) (authSecret : String) : AuthResult :=
  match authHeader with
  | none => .reject 401 "Access token required"
  | some h =>
    match specSecondField h with
    | none => .reject 401 "Access token required"
    | some t =>
      if t = "" then .reject 401 "Access token required"
      else if t ≠ authSecret then .reject 403 "Invalid access token"
      else .pass

/-! ## Metadata JSON parsing

Model of `JSON.parse` restricted to the system's data model for the
`metadata` field: a flat JSON object with string keys and string values
(the spec's "flat mapping of metadata key→string value").  Inputs outside
this fragment are rejected with a parse error, as `JSON.parse` rejects
malformed JSON with a thrown `SyntaxError`; the error message text is this
model's own, standing in for the host's message.  Duplicate keys overwrite
the value at the key's first position, as in ECMAScript.
-/

def jsonWs (c : Char) : Bool := c = ' ' || c = '\n' || c = '\t' || c = '\r'

def skipWs (l : List Char) : List Char := l.dropWhile jsonWs

def hexVal (c : Char) : Option Nat :=
  if '0' ≤ c ∧ c ≤ '9' then some (c.toNat - 48)
  else if 'a' ≤ c ∧ c ≤ 'f' then some (c.toNat - 87)
  else if 'A' ≤ c ∧ c ≤ 'F' then some (c.toNat - 55)
  else none

/-- Parse the body of a JSON string literal, the opening quote already
consumed; returns the decoded characters and the input after the closing
quote. -/
def parseJStringBody : List Char → Except String (List Char × List Char)
  | [] => .error "Unterminated string in JSON"
  | c :: rest =>
    if c = '"' then .ok ([], rest)
    else if c = '\\' then
      match rest with
      | [] => .error "Unterminated escape in JSON"
      | e :: rest' =>
        let plain (d : Char) : Except String (List Char × List Char) :=
          (parseJStringBody rest').map (fun p => (d :: p.1, p.2))
        if e = '"' then plain '"'
        else if e = '\\' then plain '\\'
        else if e = '/' then plain '/'
        else if e = 'n' then plain '\n'
        else if e = 't' then plain '\t'
        else if e = 'r' then plain '\r'
        else if e = 'b' then plain (Char.ofNat 8)
        else if e = 'f' then plain (Char.ofNat 12)
        else if e = 'u' then
          match rest' with
          | h1 :: h2 :: h3 :: h4 :: rest'' =>
            match hexVal h1, hexVal h2, hexVal h3, hexVal h4 with
            | some a, some b, some cc, some d =>
              let n := ((a * 16 + b) * 16 + cc) * 16 + d
              if n.isValidChar then
                (parseJStringBody rest'').map (fun p => (Char.ofNat n :: p.1, p.2))
              else .error "Unsupported unicode escape in JSON"
            | _, _, _, _ => .error "Invalid unicode escape in JSON"
          | _ => .error "Invalid unicode escape in JSON"
        else .error "Invalid escape in JSON"
    else if c.toNat < 32 then .error "Control character in JSON string"
    else (parseJStringBody rest).map (fun p => (c :: p.1, p.2))

/-- Property creation `obj[k] = v`: overwrites in place when the key exists,
otherwise appends. -/
def objInsert (m : Metadata) (k v : String) : Metadata :=
  if (List.find? (fun kv => kv.1 = k) m).isSome then
    List.map (fun kv => if kv.1 = k then (k, v) else kv) m
  else m ++ [(k, v)]

/-- Parse the members of a JSON object, positioned after `{` and any leading
whitespace, at the first key; fuel bounds the number of members. -/
def parseMembers (fuel : Nat) (l : List Char) (acc : Metadata) :
    Except String (Metadata × List Char) :=
  match fuel with
  | 0 => .error "JSON object too large"
  | fuel + 1 =>
    match l with
    | '"' :: r1 =>
      match parseJStringBody r1 with
      | .error e => .error e
      | .ok (k, r2) =>
        match skipWs r2 with
        | ':' :: r3 =>
          match skipWs r3 with
          | '"' :: r4 =>
            match parseJStringBody r4 with
            | .error e => .error e
            | .ok (v, r5) =>
              let acc' := objInsert acc (String.mk k) (String.mk v)
              match skipWs r5 with
              | ',' :: r6 => parseMembers fuel (skipWs r6) acc'
              | '}' :: r6 => .ok (acc', r6)
              | _ => .error "Expected comma or closing brace in JSON object"
          | _ => .error "Expected string value in metadata object"
        | _ => .error "Expected colon in JSON object"
    | _ => .error "Expected string key in JSON object"

/-- Model of `JSON.parse` on the metadata field. -/
def jsonParseFlat (s : String) : Except String Metadata :=
  match skipWs s.data with
  | '{' :: r1 =>
    match skipWs r1 with
    | '}' :: r2 =>
      if (skipWs r2).isEmpty then .ok [] else .error "Unexpected trailing characters in JSON"
    | r2 =>
      match parseMembers (r2.length + 1) r2 [] with
      | .error e => .error e
      | .ok (m, rest) =>
        if (skipWs rest).isEmpty then .ok m else .error "Unexpected trailing characters in JSON"
  | _ => .error "Unexpected token in JSON"

/-! ## Requests, responses and the upload handler

The multipart layer is a black box producing `req.file` (an in-memory
buffer, absent when no `image` part was sent) and the text fields
`req.body.metadata` and `req.body.filename`.  The Cloudinary collaborator
is a function from the assembled upload options and the file buffer to
either an upload result or a Cloudinary error; the handler's return value
pairs the HTTP response with the list of upstream calls it performed, so
"no upstream call is made" is `= []`.  The embedding follows
`src/unnamed/part_000`, whose validation and error paths coincide with the
`src/server.js` handlers.
-/

structure FileInfo where
  buffer : List Nat
  size : Nat
deriving DecidableEq, Repr

structure UploadRequest where
  authorization : Option String
  file : Option FileInfo
  metadata : Option String
  filename : Option String
deriving DecidableEq, Repr

/-- The configuration read from the environment at startup. -/
structure Env where
  authToken : String
  uploadFolder : Option String
deriving DecidableEq, Repr

/-- The options object handed to `cloudinary.uploader.upload_stream`. -/
structure UploadOptions where
  public_id : String
  folder : String
  resource_type : String
  context : String
  tags : List String
  overwrite : Bool
  unique_filename : Bool
  use_filename : Bool
  caption : Option String
  alt : Option String
deriving DecidableEq, Repr

/-- The upstream upload descriptor consumed by the success response. -/
structure UploadApiResult where
  secure_url : String
  public_id : String
  width : Nat
  height : Nat
  format : String
  bytes : Nat
  created_at : String
  caption : Option String
  alt : Option String
  tags : List String
deriving DecidableEq, Repr

/-- An error caught at the handler boundary: Cloudinary errors carry a
truthy `http_code` and possibly a nested `error.message`; other thrown
errors (network failures, `SyntaxError` from `JSON.parse`) do not. -/
structure CloudinaryError where
  http_code : Option Nat
  message : Option String
  innerMessage : Option String
deriving DecidableEq, Repr

/-- A JSON response: the HTTP status plus the fields any of the handlers
ever set (absent fields stay `none`). -/
structure Response where
  status : Nat
  success : Option Bool := none
  message : Option String := none
  error : Option String := none
  details : Option String := none
  timestamp : Option String := none
  available_endpoints : Option (List String) := none
  url : Option String := none
  public_id : Option String := none
  width : Option Nat := none
  height : Option Nat := none
  format : Option String := none
  bytes : Option Nat := none
  created_at : Option String := none
  caption : Option String := none
  alt : Option String := none
deriving DecidableEq, Repr

/-- Built-in caption field: `metadata['context.custom.title']`, kept only
when truthy. -/
def builtInCaption (m : Metadata) : Option String :=
  if jsTruthy (jsGet m "context.custom.title") then jsGet m "context.custom.title" else none

/-- Built-in alt field: `metadata['context.custom.alt']`, kept only when
truthy. -/
def builtInAlt (m : Metadata) : Option String :=
  if jsTruthy (jsGet m "context.custom.alt") then jsGet m "context.custom.alt" else none

/-- Grouping identifier: `metadata.MPVID || metadata.baseName || 'unknown'`. -/
def mpvid (m : Metadata) : String :=
  jsOrStr (jsGet m "MPVID") (jsOrStr (jsGet m "baseName") "unknown")

/-- The `uploadOptions` object assembled by `src/unnamed/part_000`. -/
def uploadOptions (env : Env) (m : Metadata) (filename : String) : UploadOptions where
  public_id := stripImageExt filename
  folder := jsOrStr env.uploadFolder "figma-exports"
  resource_type := "image"
  context := contextString m
  tags := ["figma", "metadata-export", mpvid m]
  overwrite := true
  unique_filename := false
  use_filename := true
  caption := builtInCaption m
  alt := builtInAlt m

/-- Truthiness of `error.http_code`. -/
def isTruthyCode : Option Nat → Bool
  | some n => n ≠ 0
  | none => false

/-- The `catch` block of the upload handler. -/
def uploadCatchResponse (e : CloudinaryError) : Response :=
  if isTruthyCode e.http_code then
    { status := 400
      success := some false
      error := some ("Cloudinary error: " ++ e.message.getD "undefined")
      details := some (jsOrStr e.innerMessage "Unknown Cloudinary error") }
  else
    { status := 500
      success := some false
      error := some "Upload failed"
      details := e.message }

/-- The success response of the upload handler. -/
def uploadSuccessResponse (r : UploadApiResult) : Response where
  status := 200
  success := some true
  url := some r.secure_url
  public_id := some r.public_id
  width := some r.width
  height := some r.height
  format := some r.format
  bytes := some r.bytes
  created_at := some r.created_at
  caption := r.caption
  alt := r.alt

/-- The external Cloudinary collaborator. -/
abbrev Upstream := UploadOptions → List Nat → Except CloudinaryError UploadApiResult

/-- The `/upload` handler of `src/unnamed/part_000`, after authentication:
validate the file part, parse the metadata (a thrown `SyntaxError` reaches
the same catch block with no `http_code`), assemble the options, perform
the single upstream call, normalize the outcome. -/
def uploadHandler (env : Env) (upstream : Upstream) (req : UploadRequest) :
    Response × List UploadOptions :=
  match req.file with
  | none => ({ status := 400, success := some false, error := some "No image file provided" }, [])
  | some f =>
    match jsonParseFlat (jsOrStr req.metadata "{}") with
    | .error e =>
      (uploadCatchResponse { http_code := none, message := some e, innerMessage := none }, [])
    | .ok metadata =>
      let filename := jsOrStr req.filename "unnamed"
      let opts := uploadOptions env metadata filename
      match upstream opts f.buffer with
      | .error err => (uploadCatchResponse err, [opts])
      | .ok result => (uploadSuccessResponse result, [opts])

/-! ## Routing -/

inductive HttpMethod where
  | get
  | post
deriving DecidableEq, Repr

def healthResponse (now : String) : Response where
  status := 200
  success := some true
  message := some "Cloudinary proxy server is running"
  timestamp := some now

/-- The catch-all 404 handler (`app.use('*', ...)`). -/
def notFoundResponse : Response where
  status := 404
  success := some false
  error := some "Endpoint not found"
  available_endpoints := some ["GET /health - Health check", "POST /upload - Upload images"]

/-- The application's routing: `GET /health`, `POST /upload` behind
`authenticateToken`, and the catch-all 404 handler for everything else. -/
def serverRespond (env : Env) (upstream : Upstream) (now : String)
    (method : HttpMethod) (path : String) (req : UploadRequest) :
    Response × List UploadOptions :=
  match method, path with
  | .get, "/health" => (healthResponse now, [])
  | .post, "/upload" =>
    match authenticateToken req.authorization env.authToken with
    | .reject s e => ({ status := s, success := some false, error := some e }, [])
    | .pass => uploadHandler env upstream req
  | _, _ => (notFoundResponse, [])

/-! ## Helper lemmas -/

theorem joinWith_cons_ne_nil {c : Char} {p : List Char} {ps : List (List Char)}
    (hp : p ≠ []) : joinWith c (p :: ps) ≠ [] := by
  cases ps with
  | nil => simpa [joinWith] using hp
  | cons q qs => simp [joinWith, hp]

theorem entryChars_ne_nil (kv : String × String) : entryChars kv ≠ [] := by
  unfold entryChars
  intro h
  rcases List.append_eq_nil.mp h with ⟨-, h2⟩
  exact List.cons_ne_nil _ _ h2

theorem entryChars_no_pipe {kv : String × String}
    (h1 : delimFree kv.1 = true) (h2 : delimFree kv.2 = true) : '|' ∉ entryChars kv := by
  unfold entryChars
  intro hmem
  rcases List.mem_append.mp hmem with hk | hv
  · have := (List.all_eq_true.mp h1) '|' hk
    simp at this
  · rcases List.mem_cons.mp hv with he | hv'
    · exact absurd he (by decide)
    · have := (List.all_eq_true.mp h2) '|' hv'
      simp at this

/-- Reading one rendered entry back recovers its key and value when the key
contains no key-value separator. -/
theorem parse_entryChars {kv : String × String} (h1 : delimFree kv.1 = true) :
    (String.mk ((entryChars kv).takeWhile (· ≠ '=')),
      String.mk ((afterFirstChar '=' (entryChars kv)).getD [])) = kv := by
  have hk : ∀ x ∈ kv.1.data, x ≠ '=' := by
    intro x hx
    have hb := (List.all_eq_true.mp h1) x hx
    simp only [Bool.and_eq_true, decide_eq_true_eq] at hb
    exact hb.2
  have hkm : '=' ∉ kv.1.data := fun hmem => (hk '=' hmem) rfl
  unfold entryChars
  rw [takeWhile_append_of_forall hk, afterFirstChar_append_cons hkm]
  rfl

/-- The round trip on an arbitrary rendered entry list whose keys and
values are delimiter-free. -/
theorem parseContext_joinContext {entries : Metadata}
    (h : ∀ kv ∈ entries, delimFree kv.1 = true ∧ delimFree kv.2 = true) :
    parseContext (joinContext entries) = entries := by
  cases entries with
  | nil => rfl
  | cons e es =>
    have hne : joinWith '|' (List.map entryChars (e :: es)) ≠ [] := by
      simpa [List.map] using
        @joinWith_cons_ne_nil '|' (entryChars e) (List.map entryChars es) (entryChars_ne_nil e)
    have hjoin : joinContext (e :: es) ≠ "" := by
      unfold joinContext
      intro hs
      exact hne (congrArg String.data hs)
    unfold parseContext
    rw [if_neg hjoin]
    have hdata : (joinContext (e :: es)).data = joinWith '|' (List.map entryChars (e :: es)) := rfl
    rw [hdata]
    rw [splitOnChar_joinWith (by simp) ?parts]
    case parts =>
      intro p hp
      rcases List.mem_map.mp hp with ⟨kv, hkv, rfl⟩
      exact entryChars_no_pipe (h kv hkv).1 (h kv hkv).2
    rw [List.map_map]
    exact List.map_congr_left (fun kv hkv => parse_entryChars (h kv hkv).1) |>.trans
      (List.map_id _)

theorem contextEntriesOf_perm (keep : (String × String) → Bool) (m : Metadata) :
    List.Perm (contextEntriesOf keep m) (List.filter keep m) := by
  unfold contextEntriesOf
  exact (jsRecordEntries_perm _).trans ((jsRecordEntries_perm m).filter keep)

theorem mem_contextEntriesOf {keep : (String × String) → Bool} {m : Metadata}
    {kv : String × String} (h : kv ∈ contextEntriesOf keep m) :
    kv ∈ m ∧ keep kv = true := by
  have := (contextEntriesOf_perm keep m).mem_iff.mp h
  rcases List.mem_filter.mp this with ⟨h1, h2⟩
  exact ⟨h1, h2⟩

theorem mem_contextEntries {m : Metadata} {kv : String × String}
    (h : kv ∈ contextEntries m) : kv ∈ m ∧ serverKeep kv = true := by
  unfold contextEntries at h
  rcases List.mem_filter.mp h with ⟨h1, h2⟩
  exact ⟨(jsRecordEntries_perm m).mem_iff.mp h1, h2⟩

/-- The code's token extraction coincides with the second-space-separated-
field reading of the header. -/
theorem extractToken_eq_specSecondField (h : String) :
    (jsSplit ' ' h)[1]? = specSecondField h := by
  unfold jsSplit specSecondField
  rw [List.getElem?_map, splitOnChar_getElem?_one]
  cases afterFirstChar ' ' h.data <;> rfl

/-- Every metadata object with no array-index keys keeps both context
pipelines in insertion order. -/
theorem jsRecordEntries_filter_of_noIndexKeys {m : Metadata} (keep : (String × String) → Bool)
    (h : ∀ kv ∈ m, isArrayIndexKey kv.1 = false) :
    contextEntriesOf keep m = List.filter keep m := by
  unfold contextEntriesOf
  rw [jsRecordEntries_of_noIndexKeys h]
  exact jsRecordEntries_of_noIndexKeys (fun kv hkv => h kv (List.mem_of_mem_filter hkv))

/-! ### Uniqueness of the matched image extension -/

theorem lowerStr_data_append (a b : String) :
    (lowerStr (a ++ b)).data = (lowerStr a).data ++ (lowerStr b).data := by
  unfold lowerStr
  simp [String.data_append]

theorem lowerStr_length (s : String) : (lowerStr s).data.length = s.data.length := by
  unfold lowerStr
  simp

/-- Each of the five extension alternatives is already lowercase, and so is
its dot-prefixed form. -/
theorem lower_dot_ext : ∀ ext ∈ imageExts, (lowerStr ("." ++ ext)).data = '.' :: ext.data := by
  decide

/-- At most one of the five alternatives of the end-anchored pattern can
match a given string: two dot-extension suffixes of the same character list
coincide. -/
theorem ext_suffix_unique {L : List Char} {a b : String}
    (ha : a ∈ imageExts) (hb : b ∈ imageExts)
    (hsa : List.IsSuffix ('.' :: a.data) L) (hsb : List.IsSuffix ('.' :: b.data) L) :
    a = b := by
  rcases List.suffix_or_suffix_of_suffix hsa hsb with hab | hba
  · fin_cases ha <;> fin_cases hb <;> revert hab <;> decide
  · fin_cases ha <;> fin_cases hb <;> revert hba <;> decide

/-- Find on a list with a unique matching element. -/
theorem find?_eq_some_of_iff {α : Type} {l : List α} {p : α → Bool} {x : α}
    (hx : x ∈ l) (h : ∀ y ∈ l, (p y = true ↔ y = x)) : List.find? p l = some x := by
  induction l with
  | nil => cases hx
  | cons y ys ih =>
    by_cases hy : p y = true
    · have hxy : y = x := (h y (by simp)).mp hy
      subst hxy
      simp [List.find?, hy]
    · have hyx : y ≠ x := by
        intro he
        subst he
        exact hy ((h y (by simp)).mpr rfl)
      have hx' : x ∈ ys := by
        rcases List.mem_cons.mp hx with he | hm
        · exact absurd he.symm hyx
        · exact hm
      have hps : p y = false := by simpa using hy
      simp only [List.find?, hps]
      exact ih hx' (fun z hz => h z (List.mem_cons_of_mem y hz))

/-- With a case-insensitive image extension appended behind a dot, exactly
that extension is found by the pattern. -/
theorem find_ext_of_appended (r e : String) (he : lowerStr e ∈ imageExts) :
    List.find? (fun ext => endsWithCI ("." ++ ext) (r ++ "." ++ e)) imageExts
      = some (lowerStr e) := by
  have hsuffix : List.IsSuffix ('.' :: (lowerStr e).data) (lowerStr (r ++ "." ++ e)).data := by
    rw [lowerStr_data_append, lowerStr_data_append]
    have hdot : (lowerStr ".").data = ['.'] := by decide
    rw [hdot]
    have hre : ((lowerStr r).data ++ ['.']) ++ (lowerStr e).data
        = (lowerStr r).data ++ ('.' :: (lowerStr e).data) := by
      rw [List.append_assoc]
      rfl
    rw [hre]
    exact List.suffix_append _ _
  apply find?_eq_some_of_iff he
  intro ext hext
  constructor
  · intro hmatch
    unfold endsWithCI at hmatch
    rw [List.isSuffixOf_iff_suffix] at hmatch
    rw [lower_dot_ext ext hext] at hmatch
    exact ext_suffix_unique hext he hmatch hsuffix
  · rintro rfl
    unfold endsWithCI
    rw [List.isSuffixOf_iff_suffix, lower_dot_ext _ he]
    exact hsuffix

/-- Stripping a case-insensitive image extension appended behind a dot
recovers the stem. -/
theorem stripImageExt_append (r e : String) (he : lowerStr e ∈ imageExts) :
    stripImageExt (r ++ "." ++ e) = r := by
  unfold stripImageExt
  rw [find_ext_of_appended r e he]
  have hdata : (r ++ "." ++ e).data = r.data ++ '.' :: e.data := by
    simp [String.data_append]
  rw [hdata]
  have hlen : (r.data ++ '.' :: e.data).length - ((lowerStr e).data.length + 1)
      = r.data.length := by
    rw [lowerStr_length]
    simp [List.length_append]
  show String.mk (List.take ((r.data ++ '.' :: e.data).length - ((lowerStr e).data.length + 1))
    (r.data ++ '.' :: e.data)) = r
  rw [hlen]
  rw [show List.take r.data.length (r.data ++ '.' :: e.data) = r.data from List.take_left _ _]

/-- The claim's non-built-in, non-denylisted key predicate for
`src/unnamed/part_000`. -/
def freeFormKey (kv : String × String) : Bool :=
  !strStartsWith "context.custom." kv.1 && kv.1 ≠ "timestamp" && kv.1 ≠ "baseName"

/-- The claim's non-denylisted key predicate for the main `src/server.js`
variant (which has no built-in keys). -/
def serverFreeKey (kv : String × String) : Bool :=
  kv.1 ≠ "timestamp" && kv.1 ≠ "baseName"

/-! ## Concrete fixtures shared by the witnesses -/

def stubUpstream : Upstream :=
  fun _ _ => .error { http_code := none, message := none, innerMessage := none }

def stubEnv : Env := { authToken := "secret-token", uploadFolder := none }

def stubFile : FileInfo := { buffer := [1, 2, 3], size := 3 }

def stubReq : UploadRequest :=
  { authorization := none, file := none, metadata := none, filename := none }

/-! ## The claims -/

/-- C1, counterexample to the claim as stated: `authHeader.split(' ')[1]` is
the text between the first and the second space, not the whole substring
after the first space.  For the header `Bearer a b` and the configured
secret `a b`, the substring after the first space equals the secret, so the
claim prescribes passing the request through; the code compares only `a`
and rejects with 403. -/
theorem C1_counterexample :
    authenticateToken (some "Bearer a b") "a b" = .reject 403 "Invalid access token" ∧
    claimAuthGuard (some "Bearer a b") "a b" = .pass ∧
    authenticateToken (some "Bearer a b") "a b" ≠ claimAuthGuard (some "Bearer a b") "a b" := by
  refine ⟨by decide, by decide, by decide⟩

/-- C1, amended: the auth guard extracts the bearer token as the second
space-separated field of the Authorization header (the maximal space-free
substring following the first space); a missing or empty token yields 401,
a present token different from the configured secret yields 403, in both
cases the `/upload` route responds without any upstream call, and a
matching token passes the request through unchanged to the upload
handler. -/
theorem C1_authGuard_secondField :
    (∀ (header : Option String) (secret : String),
        authenticateToken header secret = claimAuthGuardAmended header secret) ∧
    (∀ (env : Env) (up : Upstream) (now : String) (req : UploadRequest) (s : Nat) (e : String),
        authenticateToken req.authorization env.authToken = .reject s e →
        serverRespond env up now .post "/upload" req
          = ({ status := s, success := some false, error := some e }, [])) ∧
    (∀ (env : Env) (up : Upstream) (now : String) (req : UploadRequest),
        authenticateToken req.authorization env.authToken = .pass →
        serverRespond env up now .post "/upload" req = uploadHandler env up req) := by
  refine ⟨?_, ?_, ?_⟩
  · intro header secret
    cases header with
    | none => rfl
    | some h =>
      by_cases hh : h = ""
      · subst hh; rfl
      · have hx : extractToken (some h) = specSecondField h := by
          show (if h = "" then none else (jsSplit ' ' h)[1]?) = specSecondField h
          rw [if_neg hh]
          exact extractToken_eq_specSecondField h
        show (match extractToken (some h) with
            | none => AuthResult.reject 401 "Access token required"
            | some t =>
              if t = "" then AuthResult.reject 401 "Access token required"
              else if t ≠ secret then AuthResult.reject 403 "Invalid access token"
              else AuthResult.pass)
          = (match specSecondField h with
            | none => AuthResult.reject 401 "Access token required"
            | some t =>
              if t = "" then AuthResult.reject 401 "Access token required"
              else if t ≠ secret then AuthResult.reject 403 "Invalid access token"
              else AuthResult.pass)
        rw [hx]
  · intro env up now req s e h
    simp [serverRespond, h]
  · intro env up now req h
    simp [serverRespond, h]

/-- C1, witness. -/
theorem C1_witness :
    authenticateToken (some "Bearer tok") "tok" = claimAuthGuardAmended (some "Bearer tok") "tok" ∧
    serverRespond stubEnv stubUpstream "now" .post "/upload" stubReq
      = ({ status := 401, success := some false, error := some "Access token required" }, []) :=
  ⟨C1_authGuard_secondField.1 (some "Bearer tok") "tok",
   C1_authGuard_secondField.2.1 stubEnv stubUpstream "now" stubReq 401 "Access token required" rfl⟩

/-- C2, counterexample to the claim as stated: the server has no
`/api/claude` route, so a POST to `/api/claude` (in particular one whose
body lacks `apiKey`) falls through to the catch-all handler and is answered
with status 404, not 400. -/
theorem C2_counterexample :
    (serverRespond stubEnv stubUpstream "now" .post "/api/claude" stubReq).1.status = 404 ∧
    (serverRespond stubEnv stubUpstream "now" .post "/api/claude" stubReq).1.status ≠ 400 ∧
    (serverRespond stubEnv stubUpstream "now" .post "/api/claude" stubReq).2 = [] := by
  refine ⟨rfl, by decide, rfl⟩

/-- C2, amended: every POST to `/api/claude` is answered by the catch-all
404 handler with status 404 and the error `Endpoint not found` listing the
available endpoints, and no upstream call is made. -/
theorem C2_apiClaude_notFound :
    ∀ (env : Env) (up : Upstream) (now : String) (req : UploadRequest),
      serverRespond env up now .post "/api/claude" req = (notFoundResponse, []) ∧
      notFoundResponse.status = 404 ∧
      notFoundResponse.error = some "Endpoint not found" ∧
      notFoundResponse.available_endpoints
        = some ["GET /health - Health check", "POST /upload - Upload images"] := by
  intro env up now req
  exact ⟨rfl, rfl, rfl, rfl⟩

/-- C3: a POST to `/upload` that passes authentication but has no image
part is answered with status 400 and the body
`{success: false, error: "No image file provided"}`, and no upstream
upload call is made. -/
theorem C3_upload_noFile :
    ∀ (env : Env) (up : Upstream) (req : UploadRequest),
      req.file = none →
      uploadHandler env up req
        = ({ status := 400, success := some false, error := some "No image file provided" }, []) := by
  intro env up req h
  unfold uploadHandler
  rw [h]

/-- C3, witness. -/
theorem C3_witness :
    uploadHandler stubEnv stubUpstream stubReq
      = ({ status := 400, success := some false, error := some "No image file provided" }, []) :=
  C3_upload_noFile stubEnv stubUpstream stubReq rfl

/-- C4: in each of the three variants, neither the denylisted keys
(`timestamp`, `baseName`) nor the variant's designated built-in-field keys
ever occur as the key of an entry of the serialized context string. -/
theorem C4_denylist_never_in_context :
    ∀ (m : Metadata) (kv : String × String),
      (kv ∈ contextEntries m → kv.1 ≠ "timestamp" ∧ kv.1 ≠ "baseName") ∧
      (kv ∈ serverBContextData m →
        kv.1 ≠ "timestamp" ∧ kv.1 ≠ "baseName" ∧
        kv.1 ≠ "Title (caption)" ∧ kv.1 ≠ "Description (alt)") ∧
      (kv ∈ part000ContextData m →
        kv.1 ≠ "timestamp" ∧ kv.1 ≠ "baseName" ∧
        kv.1 ≠ "context.custom.title" ∧ kv.1 ≠ "context.custom.alt") := by
  intro m kv
  refine ⟨?_, ?_, ?_⟩
  · intro h
    have hk := (mem_contextEntries h).2
    unfold serverKeep keepFreeForm at hk
    simp only [Bool.and_eq_true, decide_eq_true_eq] at hk
    obtain ⟨⟨ht1, ht2⟩, -⟩ := hk
    exact ⟨ht1, ht2⟩
  · intro h
    have hk := (mem_contextEntriesOf h).2
    unfold serverBKeep keepFreeForm at hk
    simp only [Bool.and_eq_true, decide_eq_true_eq] at hk
    obtain ⟨⟨hd1, hd2⟩, ⟨ht1, ht2⟩, -⟩ := hk
    exact ⟨ht1, ht2, hd1, hd2⟩
  · intro h
    have hk := (mem_contextEntriesOf h).2
    unfold part000Keep keepFreeForm at hk
    simp only [Bool.and_eq_true, Bool.not_eq_true', decide_eq_true_eq] at hk
    obtain ⟨hns, ⟨ht1, ht2⟩, -⟩ := hk
    refine ⟨ht1, ht2, ?_, ?_⟩
    · intro he
      rw [he] at hns
      exact absurd hns (by decide)
    · intro he
      rw [he] at hns
      exact absurd hns (by decide)

/-- C4, witness. -/
theorem C4_witness :
    ("note", "v") ∈ part000ContextData [("note", "v"), ("timestamp", "t")] ∧
    ("note", "v").1 ≠ "timestamp" :=
  ⟨by decide,
   ((C4_denylist_never_in_context [("note", "v"), ("timestamp", "t")] ("note", "v")).2.2
     (by decide)).1⟩

/-- C5, counterexample to the claim as stated: a value containing the
delimiters (here `x|b=y`, not empty and not falsy) is split apart by the
reader, so the recovered pairs are not the pairs of the object. -/
theorem C5_counterexample :
    parseContext (contextString [("a", "x|b=y")]) = [("a", "x"), ("b", "y")] ∧
    List.filter freeFormKey [("a", "x|b=y")] = [("a", "x|b=y")] ∧
    ¬ List.Perm (parseContext (contextString [("a", "x|b=y")]))
        (List.filter freeFormKey [("a", "x|b=y")]) := by
  refine ⟨by decide, by decide, ?_⟩
  intro hperm
  have hlen := hperm.length_eq
  have h1 : parseContext (contextString [("a", "x|b=y")]) = [("a", "x"), ("b", "y")] := by decide
  have h2 : List.filter freeFormKey [("a", "x|b=y")] = [("a", "x|b=y")] := by decide
  rw [h1, h2] at hlen
  simp at hlen

/-- C5, amended: for every metadata object in which no value is empty or
falsy and no key or value contains the delimiters `|` or `=`, splitting
the serialized context string on `|` and each entry at its `=` recovers
exactly the non-built-in, non-denylisted key/value pairs of the object,
with no pair lost, added, or altered — in both the `part_000` and the main
`server.js` pipelines. -/
theorem C5_context_roundtrip :
    ∀ (m : Metadata),
      (∀ kv ∈ m, kv.2 ≠ "") →
      (∀ kv ∈ m, delimFree kv.1 = true ∧ delimFree kv.2 = true) →
      List.Perm (parseContext (contextString m)) (List.filter freeFormKey m) ∧
      List.Perm (parseContext (serverContextString m)) (List.filter serverFreeKey m) := by
  intro m hval hdelim
  constructor
  · have hmem : ∀ kv ∈ part000ContextData m, delimFree kv.1 = true ∧ delimFree kv.2 = true :=
      fun kv hkv => hdelim kv (mem_contextEntriesOf hkv).1
    unfold contextString
    rw [parseContext_joinContext hmem]
    have hfe : List.filter part000Keep m = List.filter freeFormKey m := by
      apply List.filter_congr
      intro kv hkv
      have hv := hval kv hkv
      simp [part000Keep, keepFreeForm, freeFormKey, hv, Bool.and_assoc]
    exact hfe ▸ contextEntriesOf_perm part000Keep m
  · have hmem : ∀ kv ∈ contextEntries m, delimFree kv.1 = true ∧ delimFree kv.2 = true :=
      fun kv hkv => hdelim kv (mem_contextEntries hkv).1
    unfold serverContextString
    rw [parseContext_joinContext hmem]
    have hperm : List.Perm (contextEntries m) (List.filter serverKeep m) :=
      (jsRecordEntries_perm m).filter serverKeep
    have hfe : List.filter serverKeep m = List.filter serverFreeKey m := by
      apply List.filter_congr
      intro kv hkv
      have hv := hval kv hkv
      simp [serverKeep, keepFreeForm, serverFreeKey, hv, Bool.and_assoc]
    exact hfe ▸ hperm

/-- C5, witness. -/
theorem C5_witness :
    List.Perm (parseContext (contextString [("a", "1"), ("timestamp", "t")]))
      (List.filter freeFormKey [("a", "1"), ("timestamp", "t")]) :=
  (C5_context_roundtrip [("a", "1"), ("timestamp", "t")] (by decide) (by decide)).1

/-- C6: the derived storage object identifier is the supplied filename with
one trailing image-extension suffix removed case-insensitively
(`photo.PNG` yields `photo`), and a filename with no such suffix (such as
`noext`) is unchanged. -/
theorem C6_public_id_extension :
    stripImageExt "photo.PNG" = "photo" ∧ stripImageExt "noext" = "noext" ∧
    (∀ r e : String, lowerStr e ∈ imageExts → stripImageExt (r ++ "." ++ e) = r) ∧
    (∀ f : String, (∀ ext ∈ imageExts, endsWithCI ("." ++ ext) f = false) →
      stripImageExt f = f) := by
  refine ⟨by decide, by decide, stripImageExt_append, ?_⟩
  intro f h
  unfold stripImageExt
  rw [List.find?_eq_none.mpr ?none]
  case none =>
    intro x hx
    simp [h x hx]

/-- C6, witness. -/
theorem C6_witness :
    lowerStr "PNG" ∈ imageExts ∧ stripImageExt ("photo" ++ "." ++ "PNG") = "photo" :=
  ⟨by decide, C6_public_id_extension.2.2.1 "photo" "PNG" (by decide)⟩

/-- C7: a failed upstream upload call with a truthy provider `http_code` is
answered with status 400 and an error carrying the provider's message, any
other failure with status 500 and the generic `Upload failed`; in both
cases the response is a JSON envelope with `success: false`, an `error`
string and, where available, a `details` string. -/
theorem C7_upstream_error_envelope :
    ∀ (env : Env) (up : Upstream) (req : UploadRequest) (f : FileInfo) (mdata : Metadata)
      (err : CloudinaryError),
      req.file = some f →
      jsonParseFlat (jsOrStr req.metadata "{}") = .ok mdata →
      up (uploadOptions env mdata (jsOrStr req.filename "unnamed")) f.buffer = .error err →
      uploadHandler env up req
        = (uploadCatchResponse err, [uploadOptions env mdata (jsOrStr req.filename "unnamed")]) ∧
      (uploadCatchResponse err).success = some false ∧
      (isTruthyCode err.http_code = true →
        (uploadCatchResponse err).status = 400 ∧
        (uploadCatchResponse err).error
          = some ("Cloudinary error: " ++ err.message.getD "undefined") ∧
        (uploadCatchResponse err).details
          = some (jsOrStr err.innerMessage "Unknown Cloudinary error")) ∧
      (isTruthyCode err.http_code = false →
        (uploadCatchResponse err).status = 500 ∧
        (uploadCatchResponse err).error = some "Upload failed" ∧
        (uploadCatchResponse err).details = err.message) := by
  intro env up req f mdata err hf hp hu
  refine ⟨?_, ?_, ?_, ?_⟩
  · simp only [uploadHandler, hf, hp, hu]
  · unfold uploadCatchResponse
    split <;> rfl
  · intro ht
    simp [uploadCatchResponse, ht]
  · intro hn
    simp [uploadCatchResponse, hn]

/-- C7, witness. -/
theorem C7_witness :
    uploadHandler stubEnv
        (fun _ _ => .error { http_code := some 420, message := some "Rate limited",
                             innerMessage := some "try later" })
        { authorization := none, file := some stubFile, metadata := none,
          filename := some "x.png" }
      = (uploadCatchResponse { http_code := some 420, message := some "Rate limited",
                               innerMessage := some "try later" },
         [uploadOptions stubEnv [] (jsOrStr (some "x.png") "unnamed")]) ∧
    (uploadCatchResponse { http_code := some 420, message := some "Rate limited",
                           innerMessage := some "try later" }).status = 400 := by
  have h := C7_upstream_error_envelope stubEnv
    (fun _ _ => .error { http_code := some 420, message := some "Rate limited",
                         innerMessage := some "try later" })
    { authorization := none, file := some stubFile, metadata := none, filename := some "x.png" }
    stubFile [] { http_code := some 420, message := some "Rate limited",
                  innerMessage := some "try later" }
    rfl rfl rfl
  exact ⟨h.1, (h.2.2.1 rfl).1⟩

/-- C8, counterexample to the claim as stated: the grouping identifier is
computed (here `g1` from the `MPVID` key) but the folder in the assembled
upload options is just the configured base folder, not
`<base folder>/<grouping id>`. -/
theorem C8_counterexample :
    mpvid [("MPVID", "g1")] = "g1" ∧
    (uploadOptions { authToken := "t", uploadFolder := some "base" }
        [("MPVID", "g1")] "x.png").folder = "base" ∧
    (uploadOptions { authToken := "t", uploadFolder := some "base" }
        [("MPVID", "g1")] "x.png").folder
      ≠ "base" ++ "/" ++ mpvid [("MPVID", "g1")] := by
  refine ⟨by decide, by decide, by decide⟩

/-- C8, amended: the grouping identifier is taken from the `MPVID` metadata
key, falling back to `baseName` and then to the literal `unknown`, and is
appended as the last upload tag; the storage folder in the upload options
is just the configured base folder (default `figma-exports`), with no
grouping segment. -/
theorem C8_grouping_tags_folder :
    ∀ (env : Env) (m : Metadata) (filename : String),
      (uploadOptions env m filename).folder = jsOrStr env.uploadFolder "figma-exports" ∧
      (uploadOptions env m filename).tags = ["figma", "metadata-export", mpvid m] ∧
      (jsTruthy (jsGet m "MPVID") = false → jsTruthy (jsGet m "baseName") = false →
        mpvid m = "unknown") ∧
      (∀ v, jsGet m "MPVID" = some v → v ≠ "" → mpvid m = v) ∧
      (∀ v, jsTruthy (jsGet m "MPVID") = false → jsGet m "baseName" = some v → v ≠ "" →
        mpvid m = v) := by
  intro env m filename
  refine ⟨rfl, rfl, ?_, ?_, ?_⟩
  · intro h1 h2
    unfold mpvid
    have hm : jsOrStr (jsGet m "MPVID") (jsOrStr (jsGet m "baseName") "unknown")
        = jsOrStr (jsGet m "baseName") "unknown" := by
      cases hg : jsGet m "MPVID" with
      | none => rfl
      | some v =>
        rw [hg] at h1
        have hv : v = "" := by
          by_contra hne
          simp [jsTruthy, hne] at h1
        simp [jsOrStr, hv]
    rw [hm]
    cases hb : jsGet m "baseName" with
    | none => rfl
    | some v =>
      rw [hb] at h2
      have hv : v = "" := by
        by_contra hne
        simp [jsTruthy, hne] at h2
      simp [jsOrStr, hv]
  · intro v hg hv
    unfold mpvid
    rw [hg]
    simp [jsOrStr, hv]
  · intro v h1 hb hv
    unfold mpvid
    cases hg : jsGet m "MPVID" with
    | none => simp [jsOrStr, hb, hv]
    | some w =>
      rw [hg] at h1
      have hw : w = "" := by
        by_contra hne
        simp [jsTruthy, hne] at h1
      simp [jsOrStr, hw, hb, hv]

/-- C8, witness. -/
theorem C8_witness :
    (uploadOptions stubEnv [("MPVID", "g1")] "a.png").folder
      = jsOrStr stubEnv.uploadFolder "figma-exports" ∧
    mpvid [("MPVID", "g1")] = "g1" :=
  ⟨(C8_grouping_tags_folder stubEnv [("MPVID", "g1")] "a.png").1,
   (C8_grouping_tags_folder stubEnv [("MPVID", "g1")] "a.png").2.2.2.1 "g1" rfl (by decide)⟩

/-- C9, counterexample to the claim as stated: `Object.entries` enumerates
array-index keys first in ascending numeric order, so for the metadata
object with keys inserted in the order `1`, `0` the serialized entries are
not in insertion order. -/
theorem C9_counterexample :
    part000ContextData [("1", "a"), ("0", "b")] = [("0", "b"), ("1", "a")] ∧
    List.filter part000Keep [("1", "a"), ("0", "b")] = [("1", "a"), ("0", "b")] ∧
    part000ContextData [("1", "a"), ("0", "b")]
      ≠ List.filter part000Keep [("1", "a"), ("0", "b")] ∧
    contextString [("1", "a"), ("0", "b")] = "0=b|1=a" := by
  refine ⟨by decide, by decide, by decide, by decide⟩

/-- C9, amended: the entry order of the serialized context string is
deterministic, and it equals the insertion order of the source metadata
mapping whenever no key is a canonical array-index string (the runtime
enumerates such keys first, in ascending numeric order); this holds for
both the main `server.js` pipeline and the `part_000` pipeline. -/
theorem C9_insertion_order :
    ∀ (m : Metadata), (∀ kv ∈ m, isArrayIndexKey kv.1 = false) →
      contextEntries m = List.filter serverKeep m ∧
      part000ContextData m = List.filter part000Keep m := by
  intro m h
  constructor
  · unfold contextEntries
    rw [jsRecordEntries_of_noIndexKeys h]
  · exact jsRecordEntries_filter_of_noIndexKeys part000Keep h

/-- C9, witness. -/
theorem C9_witness :
    part000ContextData [("b", "2"), ("a", "1")]
      = List.filter part000Keep [("b", "2"), ("a", "1")] :=
  (C9_insertion_order [("b", "2"), ("a", "1")] (by decide)).2

/-- C10: a POST to `/upload` that passes authentication and carries an
image part but whose metadata field is present and is not valid JSON is
answered with status 500 and the body
`{success: false, error: "Upload failed"}` (with the parse failure's
message as `details`), not a 400, and no upstream upload call is made:
the metadata parse throws before the upload is attempted. -/
theorem C10_invalid_metadata :
    ∀ (env : Env) (up : Upstream) (req : UploadRequest) (f : FileInfo) (s msg : String),
      req.file = some f → req.metadata = some s → s ≠ "" →
      jsonParseFlat s = .error msg →
      uploadHandler env up req
        = ({ status := 500, success := some false, error := some "Upload failed",
             details := some msg }, []) := by
  intro env up req f s msg hf hm hs hp
  have hraw : jsOrStr req.metadata "{}" = s := by
    rw [hm]
    simp [jsOrStr, hs]
  simp only [uploadHandler, hf, hraw, hp]
  rfl

/-- C10, witness. -/
theorem C10_witness :
    uploadHandler stubEnv stubUpstream
        { authorization := none, file := some stubFile, metadata := some "not json",
          filename := none }
      = ({ status := 500, success := some false, error := some "Upload failed",
           details := some "Unexpected token in JSON" }, []) :=
  C10_invalid_metadata stubEnv stubUpstream
    { authorization := none, file := some stubFile, metadata := some "not json",
      filename := none }
    stubFile "not json" "Unexpected token in JSON" rfl rfl (by decide) rfl

end CloudinaryProxy
